import Mathlib

/-!
Verification of the semantic-search-service core: the in-memory vector
store (`pkg/vectorstore`), the search engine (`internal/search`), and the
document chunker (`internal/document`).

Modelling conventions:
- Go `float32`/`float64` arithmetic is modelled over `ℚ` with exact
  operations.  Every concrete input used in a theorem below keeps all
  intermediate values exactly representable in both float formats, so the
  rational model agrees with the Go computation at those inputs.
- Go `time.Time` is modelled as `Option Int`: `none` stands for the zero
  time (`IsZero()` true, i.e. "never expires"), `some e` for an expiry
  instant; `now.After(e)` is `e < now`.
- The Go `map[string]*Item` is modelled as a keyed list of items; `Store`
  replaces in place or appends.  Go map iteration order is unspecified, so
  the list order stands for one realizable iteration order.
- Concurrency (the RWMutex, the background sweep goroutine) is out of
  scope; operations are modelled as sequential state transformers.
-/

namespace vectorstore

/-- Vectors (`[]float32` in the source) are modelled as lists of rationals. -/
abbrev Vec := List ℚ

/-- Model of the helper `sqrt` in `pkg/vectorstore`: the source computes
`float64(float32(x))`, i.e. it rounds to float32 precision and converts
back — it does not take a square root.  On values exactly representable in
float32 (all inputs used below) this is the identity, which is what the
rational model uses. -/
def sqrtPOC (x : ℚ) : ℚ := x

/-- Dot product accumulated over paired coordinates, as in the loop of
`cosineSimilarity`. -/
def dotProduct (a b : Vec) : ℚ := ((a.zip b).map fun p => p.1 * p.2).sum

/-- Sum of squared coordinates (`normA` / `normB` in the source loop). -/
def normSq (a : Vec) : ℚ := (a.map fun x => x * x).sum

/-- Model of `cosineSimilarity` from `pkg/vectorstore`: returns 0 on a
length mismatch, 0 when either accumulated square-sum is 0, and otherwise
`dotProduct / (sqrt(normA) * sqrt(normB))` with the source's `sqrt`. -/
def cosineSimilarity (a b : Vec) : ℚ :=
  if a.length ≠ b.length then 0
  else if normSq a = 0 ∨ normSq b = 0 then 0
  else dotProduct a b / (sqrtPOC (normSq a) * sqrtPOC (normSq b))

/-- Model of the `Config` struct of `pkg/vectorstore`. -/
structure Config where
  InMemory : Bool
  Address : String
  Collection : String
  VectorSize : Nat
  TTL : Int
deriving DecidableEq

/-- Model of the `Item` struct of `pkg/vectorstore`.  `ExpiresAt : Option Int`
models the Go `time.Time` field (`none` = zero time = never expires). -/
structure Item where
  ID : String
  Vector : Vec
  DocumentID : String
  Content : String
  Title : String
  Metadata : List (String × String)
  Permissions : List String
  ExpiresAt : Option Int
deriving DecidableEq

/-- Model of the `SearchParams` struct of `pkg/vectorstore`. -/
structure SearchParams where
  Vector : Vec
  Limit : Int
  PermissionFilter : List String
deriving DecidableEq

/-- Model of the `SearchResult` struct of `pkg/vectorstore`. -/
structure SearchResult where
  ID : String
  DocumentID : String
  Content : String
  Title : String
  Metadata : List (String × String)
  Score : ℚ
deriving DecidableEq

/-- Model of the unexported `scoredItem` struct of `pkg/vectorstore`. -/
structure scoredItem where
  item : Item
  score : ℚ
deriving DecidableEq

/-- Model of the possible error results of the store's operations: the
`store is closed` error, the `item with ID ... not found` error, and the
`item with ID ... has expired` error. -/
inductive StoreError where
  | storeClosed
  | itemNotFound (id : String)
  | itemExpired (id : String)
deriving DecidableEq

/-- Model of the `QdrantStore` struct: configuration, the item map
(modelled as a keyed list), and the closed flag.  The lock and the close
channel carry no sequential state. -/
structure QdrantStore where
  config : Config
  items : List Item
  closed : Bool
deriving DecidableEq

/-- Expiry test used by `Get`, `Search` and the sweep:
`!item.ExpiresAt.IsZero() && time.Now().After(item.ExpiresAt)`. -/
def hasExpired (now : Int) (it : Item) : Bool :=
  match it.ExpiresAt with
  | none => false
  | some e => decide (e < now)

/-- Model of Go map assignment `s.items[item.ID] = item`: replace the
entry with the same key, or add the item when the key is absent. -/
def upsertItem : List Item → Item → List Item
  | [], it => [it]
  | x :: xs, it => if x.ID = it.ID then it :: xs else x :: upsertItem xs it

/-- Model of `QdrantStore.Store`: fails when closed, otherwise upserts. -/
def QdrantStore.Store (s : QdrantStore) (it : Item) : Except StoreError QdrantStore :=
  if s.closed then .error .storeClosed
  else .ok { s with items := upsertItem s.items it }

/-- Model of `QdrantStore.Get`: fails when closed; not-found when the id is
absent; expired when present but past its expiry (the lazy check); returns
the item otherwise. -/
def QdrantStore.Get (s : QdrantStore) (now : Int) (id : String) : Except StoreError Item :=
  if s.closed then .error .storeClosed
  else
    match s.items.find? (fun x => x.ID = id) with
    | none => .error (.itemNotFound id)
    | some it => if hasExpired now it then .error (.itemExpired id) else .ok it

/-- Model of `QdrantStore.Delete`: fails when closed, otherwise removes the
key (a no-op when absent). -/
def QdrantStore.Delete (s : QdrantStore) (id : String) : Except StoreError QdrantStore :=
  if s.closed then .error .storeClosed
  else .ok { s with items := s.items.filter fun x => x.ID ≠ id }

/-- Permission check of `Search`: the nested loops over
`params.PermissionFilter` and `item.Permissions` looking for an equal pair. -/
def permissionMatch (filter perms : List String) : Bool :=
  filter.any fun p => perms.any fun q => p = q

/-- The condition under which the `Search` scan keeps an item (the two
`continue` branches, negated): not expired, and when the permission filter
is non-empty, some filter entry occurs among the item's permissions. -/
def searchKeep (now : Int) (params : SearchParams) (it : Item) : Bool :=
  !hasExpired now it &&
    (params.PermissionFilter.isEmpty || permissionMatch params.PermissionFilter it.Permissions)

/-- The scored candidate list built by the `Search` scan, in backing-store
iteration order. -/
def searchScored (s : QdrantStore) (now : Int) (params : SearchParams) : List scoredItem :=
  (s.items.filter (searchKeep now params)).map fun it =>
    ⟨it, cosineSimilarity params.Vector it.Vector⟩

/-- One pass of the inner loop of `sortScored` starting from carried
element `x` (the current `items[i]`): whenever the carried element's score
is below the element at `j` the two are swapped.  Returns the final
carried element together with the tail as rewritten by the swaps. -/
def selOne : scoredItem → List scoredItem → scoredItem × List scoredItem
  | x, [] => (x, [])
  | x, y :: ys =>
    if x.score < y.score then
      let r := selOne y ys
      (r.1, x :: r.2)
    else
      let r := selOne x ys
      (r.1, y :: r.2)

theorem selOne_snd_length (x : scoredItem) (l : List scoredItem) :
    (selOne x l).2.length = l.length := by
  induction l generalizing x with
  | nil => rfl
  | cons y ys ih =>
    by_cases h : x.score < y.score <;> simp [selOne, h, ih]

/-- Model of `sortScored` from `pkg/vectorstore`: the exchange sort
`for i; for j > i: if items[i].score < items[j].score swap`, which orders
by score descending and moves nothing on ties. -/
def sortScored : List scoredItem → List scoredItem
  | [] => []
  | x :: xs => (selOne x xs).1 :: sortScored (selOne x xs).2
termination_by l => l.length
decreasing_by simp [selOne_snd_length]

/-- Conversion of a scored item into a `SearchResult`, as in the final
loop of `Search`. -/
def toSearchResult (si : scoredItem) : SearchResult :=
  ⟨si.item.ID, si.item.DocumentID, si.item.Content, si.item.Title, si.item.Metadata, si.score⟩

/-- Model of `QdrantStore.Search`: fails when closed; otherwise scans the
items keeping non-expired, permission-matching ones, scores them, sorts by
score descending, truncates to `Limit` when `Limit > 0` and the list is
longer, and converts to results. -/
def QdrantStore.Search (s : QdrantStore) (now : Int) (params : SearchParams) :
    Except StoreError (List SearchResult) :=
  if s.closed then .error .storeClosed
  else
    let sorted := sortScored (searchScored s now params)
    let limited :=
      if 0 < params.Limit ∧ params.Limit < (sorted.length : Int)
      then sorted.take params.Limit.toNat else sorted
    .ok (limited.map toSearchResult)

/-- Model of `QdrantStore.Close`: when already closed it returns nil with
no state change; otherwise it sets the closed flag and drops all items.
Both branches return no error. -/
def QdrantStore.Close (s : QdrantStore) : QdrantStore × Option StoreError :=
  if s.closed then (s, none)
  else ({ s with closed := true, items := [] }, none)

/-- Model of `cleanupExpiredItems`: one sweep pass deleting every item
whose expiry is set and has passed. -/
def QdrantStore.cleanupExpiredItems (s : QdrantStore) (now : Int) : QdrantStore :=
  { s with items := s.items.filter fun it => !hasExpired now it }

theorem selOne_perm (x : scoredItem) (l : List scoredItem) :
    List.Perm ((selOne x l).1 :: (selOne x l).2) (x :: l) := by
  induction l generalizing x with
  | nil => simp [selOne]
  | cons y ys ih =>
    by_cases h : x.score < y.score
    · simp only [selOne, if_pos h]
      exact (List.Perm.swap x _ _).trans ((ih y).cons x)
    · simp only [selOne, if_neg h]
      exact ((List.Perm.swap y _ _).trans ((ih x).cons y)).trans (List.Perm.swap x y ys)

theorem selOne_fst_max (x : scoredItem) (l : List scoredItem) :
    ∀ z ∈ x :: l, z.score ≤ (selOne x l).1.score := by
  induction l generalizing x with
  | nil =>
    intro z hz
    simp only [List.mem_singleton] at hz
    simp [selOne, hz]
  | cons y ys ih =>
    intro z hz
    by_cases h : x.score < y.score
    · simp only [selOne, if_pos h]
      rcases List.mem_cons.mp hz with hzx | hz'
      · exact hzx ▸ le_of_lt (lt_of_lt_of_le h (ih y y (List.mem_cons_self y ys)))
      · exact ih y z hz'
    · simp only [selOne, if_neg h]
      rcases List.mem_cons.mp hz with hzx | hz'
      · exact hzx ▸ ih x x (List.mem_cons_self x ys)
      · rcases List.mem_cons.mp hz' with hzy | hz''
        · exact hzy ▸ le_trans (le_of_not_lt h) (ih x x (List.mem_cons_self x ys))
        · exact ih x z (List.mem_cons_of_mem x hz'')

theorem sortScored_perm (l : List scoredItem) : List.Perm (sortScored l) l := by
  match l with
  | [] => simp [sortScored]
  | x :: xs =>
    rw [sortScored]
    exact ((sortScored_perm (selOne x xs).2).cons (selOne x xs).1).trans (selOne_perm x xs)
termination_by l.length
decreasing_by simp [selOne_snd_length]

theorem sortScored_sorted (l : List scoredItem) :
    (sortScored l).Sorted fun a b => b.score ≤ a.score := by
  match l with
  | [] => simp [sortScored]
  | x :: xs =>
    rw [sortScored, List.sorted_cons]
    refine ⟨?_, sortScored_sorted (selOne x xs).2⟩
    intro b hb
    have hb' : b ∈ (selOne x xs).2 := (sortScored_perm _).mem_iff.mp hb
    have hb'' : b ∈ x :: xs :=
      (selOne_perm x xs).mem_iff.mp (List.mem_cons_of_mem _ hb')
    exact selOne_fst_max x xs b hb''
termination_by l.length
decreasing_by simp [selOne_snd_length]

theorem pairwise_take_drop {α : Type} {rel : α → α → Prop} {l : List α}
    (h : l.Pairwise rel) (n : Nat) :
    ∀ a ∈ l.take n, ∀ b ∈ l.drop n, rel a b := by
  rw [← List.take_append_drop n l] at h
  exact (List.pairwise_append.mp h).2.2

end vectorstore

namespace document

/-- Model of Go `unicode.IsSpace` restricted to the code points that occur
in the inputs considered here (ASCII whitespace plus NEL and NBSP). -/
def goIsSpace (c : Char) : Bool :=
  c = ' ' || c = '\t' || c = '\n' || c = '\x0B' || c = '\x0C' || c = '\r' ||
    c = '\u0085' || c = '\u00A0'

/-- Accumulating scan behind `goFields`: walk the characters collecting
the current word (in reverse) and emit it at each whitespace boundary. -/
def fieldsAux : List Char → List Char → List String
  | [], acc => if acc.isEmpty then [] else [String.mk acc.reverse]
  | c :: cs, acc =>
    if goIsSpace c then
      if acc.isEmpty then fieldsAux cs [] else String.mk acc.reverse :: fieldsAux cs []
    else fieldsAux cs (c :: acc)

/-- Model of `strings.Fields`: split around runs of whitespace, keeping
only non-empty words. -/
def goFields (s : String) : List String :=
  fieldsAux s.toList []

/-- The word-grouping loop of `chunkContent`
(`for i := 0; i < len(words); i += p.chunkSize`), faithful for every
positive chunk size (the source never runs it with size 0, which would
not terminate in Go). -/
def chunkWords (size : Nat) : List String → List (List String)
  | [] => []
  | w :: ws => (w :: ws.take (size - 1)) :: chunkWords size (ws.drop (size - 1))
termination_by l => l.length
decreasing_by simp; omega

/-- Model of `Processor.chunkContent`: split the content into words and
join consecutive groups of `chunkSize` words with single spaces. -/
def chunkContent (chunkSize : Nat) (content : String) : List String :=
  (chunkWords chunkSize (goFields content)).map fun ws => String.intercalate " " ws

/-- Model of the `ProcessorResult` struct of `internal/document`. -/
structure ProcessorResult where
  DocumentID : String
  Title : String
  Content : List String
  Metadata : List (String × String)
deriving DecidableEq

end document

namespace search

open vectorstore

/-- Model of the `SearchRequest` struct of `internal/search`. -/
structure SearchRequest where
  Query : String
  UserID : String
  Permissions : List String
  Limit : Int
deriving DecidableEq

/-- Model of the `SearchResult` struct of `internal/search` (the engine's
result record, distinct from the store's). -/
structure SearchResult where
  DocumentID : String
  Title : String
  ChunkContent : String
  Score : ℚ
  Metadata : List (String × String)
deriving DecidableEq

/-- Errors surfaced by engine operations: an embedding error (of the
embedder's error type `ε`) or a store error, returned verbatim. -/
inductive EngineError (ε : Type) where
  | embed (e : ε)
  | store (e : vectorstore.StoreError)
deriving DecidableEq

/-- Model of the Go conversion `string(i)` applied to the `int` chunk
index in `IndexDocument` (`chunkID := doc.DocumentID + "-" + string(i)`):
Go renders the integer as the one-rune string of the code point `i`
(falling back to U+FFFD for surrogate or out-of-range values), not as a
decimal numeral. -/
def goStringOfInt (i : Nat) : String :=
  if i < 0xD800 ∨ (0xE000 ≤ i ∧ i < 0x110000) then String.mk [Char.ofNat i]
  else "�"

/-- The `Item` built for chunk index `i` with text `c` and embedding `v`
inside `IndexDocument`: id `doc.DocumentID + "-" + string(i)`, the
document metadata, the caller's permissions, and expiry `now + ttl`. -/
def engineItem (docID title : String) (meta : List (String × String))
    (perms : List String) (now ttl : Int) (i : Nat) (c : String) (v : Vec) : Item :=
  ⟨docID ++ "-" ++ goStringOfInt i, v, docID, c, title, meta, perms, some (now + ttl)⟩

/-- The chunk loop of `Engine.IndexDocument`, starting at chunk index `i`:
an embedding failure is logged and the chunk skipped; a `Store` failure
returns that error immediately, keeping the store state reached so far;
otherwise the loop continues on the updated store.  The embedder is the
engine's `embed` field, a function that may fail with an error of type
`ε`.  The returned pair is (error returned to the caller, final state of
the shared store). -/
def indexGo {ε : Type} (embed : String → Except ε Vec) (docID title : String)
    (meta : List (String × String)) (perms : List String) (now ttl : Int) :
    Nat → List String → QdrantStore → Option StoreError × QdrantStore
  | _, [], st => (none, st)
  | i, c :: cs, st =>
    match embed c with
    | .error _ => indexGo embed docID title meta perms now ttl (i + 1) cs st
    | .ok v =>
      match st.Store (engineItem docID title meta perms now ttl i c v) with
      | .error e => (some e, st)
      | .ok st' => indexGo embed docID title meta perms now ttl (i + 1) cs st'

/-- Model of `Engine.IndexDocument`: run the chunk loop over the
document's content from index 0. -/
def IndexDocument {ε : Type} (embed : String → Except ε Vec)
    (doc : document.ProcessorResult) (perms : List String) (now ttl : Int)
    (st : QdrantStore) : Option StoreError × QdrantStore :=
  indexGo embed doc.DocumentID doc.Title doc.Metadata perms now ttl 0 doc.Content st

/-- Conversion of store results to engine results, as in the final loop of
`Engine.Search`. -/
def convertResults (rs : List vectorstore.SearchResult) : List SearchResult :=
  rs.map fun r => ⟨r.DocumentID, r.Title, r.Content, r.Score, r.Metadata⟩

/-- Propagation of the store's search outcome by `Engine.Search`: a store
error is returned verbatim, a success is converted. -/
def engineOutcome (ε : Type)
    (r : Except StoreError (List vectorstore.SearchResult)) :
    Except (EngineError ε) (List SearchResult) :=
  match r with
  | .error e => .error (.store e)
  | .ok rs => .ok (convertResults rs)

/-- Model of `Engine.Search`.  The Go method mutates the caller's request
struct (`req.Limit = 10` when `req.Limit <= 0`) after embedding succeeds
and before querying the store; the model returns the final state of the
request alongside the outcome. -/
def Search {ε : Type} (embed : String → Except ε Vec) (st : QdrantStore)
    (now : Int) (req : SearchRequest) :
    SearchRequest × Except (EngineError ε) (List SearchResult) :=
  match embed req.Query with
  | .error e => (req, .error (.embed e))
  | .ok v =>
    let req' := if req.Limit ≤ 0 then { req with Limit := 10 } else req
    (req', engineOutcome ε (st.Search now ⟨v, req'.Limit, req.Permissions⟩))

end search

namespace vectorstore

/-- Presence of a specific item under its id: the store's lookup finds
exactly this item. -/
def present (s : QdrantStore) (it : Item) : Prop :=
  s.items.find? (fun x => x.ID = it.ID) = some it

/-- Invariant stated by the specification's data model: every held item's
vector length equals the store's configured dimension. -/
def storeInvariant (s : QdrantStore) : Prop :=
  ∀ it ∈ s.items, it.Vector.length = s.config.VectorSize

/-- Expiry as the specification words it: the expiry timestamp is set and
lies strictly in the past. -/
def expiryPassed (now : Int) (it : Item) : Prop :=
  ∃ e, it.ExpiresAt = some e ∧ e < now

/-- Eligibility as the specification words it (for comparison against the
scan of `Search`): the item's expiry has not passed, and either the
permission filter is empty or some filter entry occurs among the item's
permissions. -/
def eligibleSpec (now : Int) (params : SearchParams) (it : Item) : Prop :=
  ¬ expiryPassed now it ∧
    (params.PermissionFilter = [] ∨ ∃ p ∈ params.PermissionFilter, p ∈ it.Permissions)

theorem hasExpired_eq_false_iff (now : Int) (it : Item) :
    hasExpired now it = false ↔ ¬ expiryPassed now it := by
  unfold hasExpired expiryPassed
  cases h : it.ExpiresAt with
  | none => simp
  | some e => simp

theorem searchKeep_iff (now : Int) (params : SearchParams) (it : Item) :
    searchKeep now params it = true ↔ eligibleSpec now params it := by
  unfold searchKeep eligibleSpec permissionMatch
  rw [Bool.and_eq_true, Bool.not_eq_true', hasExpired_eq_false_iff]
  simp only [Bool.or_eq_true, List.isEmpty_iff, List.any_eq_true, decide_eq_true_eq]
  constructor
  · rintro ⟨h1, h2 | ⟨p, hp, q, hq, rfl⟩⟩
    · exact ⟨h1, Or.inl h2⟩
    · exact ⟨h1, Or.inr ⟨p, hp, hq⟩⟩
  · rintro ⟨h1, h2 | ⟨p, hp, hq⟩⟩
    · exact ⟨h1, Or.inl h2⟩
    · exact ⟨h1, Or.inr ⟨p, hp, p, hq, rfl⟩⟩

theorem find?_upsert_self (l : List Item) (it : Item) :
    (upsertItem l it).find? (fun x => x.ID = it.ID) = some it := by
  induction l with
  | nil => simp [upsertItem]
  | cons x xs ih =>
    by_cases h : x.ID = it.ID
    · simp [upsertItem, h]
    · simp [upsertItem, h, ih]

theorem find?_upsert_other (l : List Item) (it2 : Item) (i : String) (h : it2.ID ≠ i) :
    (upsertItem l it2).find? (fun x => x.ID = i) = l.find? (fun x => x.ID = i) := by
  induction l with
  | nil => simp [upsertItem, h]
  | cons x xs ih =>
    by_cases hx : x.ID = it2.ID
    · have hxi : ¬ x.ID = i := fun hh => h (by rw [← hh, hx])
      have h1 : upsertItem (x :: xs) it2 = it2 :: xs := by simp [upsertItem, hx]
      have h2 : (it2 :: xs).find? (fun a => a.ID = i) = xs.find? (fun a => a.ID = i) := by
        rw [List.find?_cons_of_neg]
        simp [h]
      have h3 : (x :: xs).find? (fun a => a.ID = i) = xs.find? (fun a => a.ID = i) := by
        rw [List.find?_cons_of_neg]
        simp [hxi]
      rw [h1, h2, h3]
    · have h1 : upsertItem (x :: xs) it2 = x :: upsertItem xs it2 := by simp [upsertItem, hx]
      rw [h1]
      by_cases hxi : x.ID = i
      · rw [List.find?_cons_of_pos, List.find?_cons_of_pos] <;> simp [hxi]
      · rw [List.find?_cons_of_neg, List.find?_cons_of_neg, ih] <;> simp [hxi]

theorem find?_erase_other (l : List Item) (i id' : String) (h : i ≠ id') :
    (l.filter fun x => x.ID ≠ id').find? (fun x => x.ID = i) =
      l.find? (fun x => x.ID = i) := by
  induction l with
  | nil => simp
  | cons x xs ih =>
    by_cases hx : x.ID = id'
    · have hxi : ¬ x.ID = i := fun hh => h (by rw [← hh, hx])
      have h1 : (x :: xs).filter (fun a => a.ID ≠ id') = xs.filter (fun a => a.ID ≠ id') := by
        simp [hx]
      have h2 : (x :: xs).find? (fun a => a.ID = i) = xs.find? (fun a => a.ID = i) := by
        rw [List.find?_cons_of_neg]
        simp [hxi]
      rw [h1, h2, ih]
    · have h1 : (x :: xs).filter (fun a => a.ID ≠ id') =
          x :: xs.filter (fun a => a.ID ≠ id') := by
        simp [hx]
      rw [h1]
      by_cases hxi : x.ID = i
      · rw [List.find?_cons_of_pos, List.find?_cons_of_pos] <;> simp [hxi]
      · rw [List.find?_cons_of_neg, List.find?_cons_of_neg, ih] <;> simp [hxi]

theorem mem_upsertItem {x it : Item} {l : List Item} (h : x ∈ upsertItem l it) :
    x = it ∨ x ∈ l := by
  induction l with
  | nil => simpa [upsertItem] using h
  | cons y ys ih =>
    by_cases hy : y.ID = it.ID
    · simp only [upsertItem, if_pos hy, List.mem_cons] at h
      rcases h with h | h
      · exact Or.inl h
      · exact Or.inr (List.mem_cons_of_mem _ h)
    · simp only [upsertItem, if_neg hy, List.mem_cons] at h
      rcases h with h | h
      · exact Or.inr (h ▸ List.mem_cons_self _ _)
      · rcases ih h with h' | h'
        · exact Or.inl h'
        · exact Or.inr (List.mem_cons_of_mem _ h')

end vectorstore

open vectorstore

/-- Claim C1 (code bug evaluation): with the source's `sqrt` being
`float64(float32(x))` rather than a square root, `cosineSimilarity`
divides the dot product by the product of the squared norms, so it
returns 1/4 instead of 1 on the nonzero vector (2.0) paired with itself,
and returns 4 (outside [-1,1]) on (0.5) paired with itself; all
intermediate float operations at these inputs are exact, so the rational
model reproduces the Go result. -/
theorem cosine_self_not_one :
    cosineSimilarity [2] [2] = 1/4 ∧
    cosineSimilarity [1/2] [1/2] = 4 ∧
    ((1 : ℚ)/4 ≠ 1) ∧ ¬((4 : ℚ) ≤ 1) := by
  refine ⟨?_, ?_, by norm_num, by norm_num⟩
  · simp [cosineSimilarity, dotProduct, normSq, sqrtPOC]
    norm_num
  · simp [cosineSimilarity, dotProduct, normSq, sqrtPOC]
    norm_num

/-- Claim C9: `cosineSimilarity` returns 0 on a length mismatch, returns 0
when either accumulated square-sum (equivalently, either norm) is 0 — in
particular on an all-zero vector — and whenever it does divide, the
divisor is nonzero. -/
theorem cosine_total_zero_guard (a b : Vec) :
    (a.length ≠ b.length → cosineSimilarity a b = 0) ∧
    (normSq a = 0 ∨ normSq b = 0 → cosineSimilarity a b = 0) ∧
    (((∀ x ∈ a, x = 0) ∨ (∀ x ∈ b, x = 0)) → cosineSimilarity a b = 0) ∧
    (cosineSimilarity a b = 0 ∨ sqrtPOC (normSq a) * sqrtPOC (normSq b) ≠ 0) := by
  have hz : ∀ c : Vec, (∀ x ∈ c, x = 0) → normSq c = 0 := by
    intro c hc
    refine List.sum_eq_zero ?_
    intro x hx
    rcases List.mem_map.mp hx with ⟨y, hy, rfl⟩
    simp [hc y hy]
  have hnorm : normSq a = 0 ∨ normSq b = 0 → cosineSimilarity a b = 0 := by
    intro h
    unfold cosineSimilarity
    by_cases h1 : a.length ≠ b.length
    · rw [if_pos h1]
    · rw [if_neg h1, if_pos h]
  refine ⟨?_, hnorm, ?_, ?_⟩
  · intro h
    unfold cosineSimilarity
    rw [if_pos h]
  · intro h
    rcases h with h | h
    · exact hnorm (Or.inl (hz a h))
    · exact hnorm (Or.inr (hz b h))
  · unfold cosineSimilarity
    by_cases h1 : a.length ≠ b.length
    · rw [if_pos h1]
      exact Or.inl rfl
    · by_cases h2 : normSq a = 0 ∨ normSq b = 0
      · rw [if_neg h1, if_pos h2]
        exact Or.inl rfl
      · push_neg at h2
        exact Or.inr (by simpa [sqrtPOC] using mul_ne_zero h2.1 h2.2)

/-- Witness for C9 at concrete inputs: mismatched lengths score 0, and a
zero-norm vector scores 0. -/
theorem cosine_total_zero_guard_witness :
    cosineSimilarity [1] [1, 2] = 0 ∧ cosineSimilarity [0] [5] = 0 := by
  constructor
  · exact (cosine_total_zero_guard [1] [1, 2]).1 (by norm_num)
  · exact (cosine_total_zero_guard [0] [5]).2.1 (Or.inl (by norm_num [normSq]))

/-- Claim C5: after `Close`, the store's `Store`, `Get`, `Delete` and
`Search` all fail with the store-closed error, the first `Close` returns
no error, and a second `Close` is a no-op that again returns no error. -/
theorem close_idempotent_blocks_ops (s : QdrantStore) (item : Item) (id : String)
    (now : Int) (params : SearchParams) :
    s.Close.2 = none ∧
    s.Close.1.Close = (s.Close.1, none) ∧
    s.Close.1.Store item = .error .storeClosed ∧
    s.Close.1.Get now id = .error .storeClosed ∧
    s.Close.1.Delete id = .error .storeClosed ∧
    s.Close.1.Search now params = .error .storeClosed := by
  by_cases h : s.closed <;>
    simp [QdrantStore.Close, QdrantStore.Store, QdrantStore.Get, QdrantStore.Delete,
      QdrantStore.Search, h]

/-- Claim C6: on an open store, `Store item` succeeds and makes `item`
present under its id; presence is kept by a `Store` of a different id and
by a `Delete` of a different id; `Get` returns the stored item while it is
present and not expired; `Get` fails with the not-found error when the id
is absent; and `Get` fails (with the has-expired error) when the item is
present but its expiry has passed — a lazy check independent of the
sweep. -/
theorem store_get_roundtrip (s s1 : QdrantStore) (now : Int) (id : String) (item it : Item)
    (hopen : s.closed = false) :
    (s.Store item = .ok { s with items := upsertItem s.items item }) ∧
    present { s with items := upsertItem s.items item } item ∧
    (∀ item2 : Item, item2.ID ≠ item.ID → present s item →
      ∀ s', s.Store item2 = .ok s' → present s' item) ∧
    (∀ id' : String, id' ≠ item.ID → present s item →
      ∀ s', s.Delete id' = .ok s' → present s' item) ∧
    (s1.closed = false → present s1 item → hasExpired now item = false →
      s1.Get now item.ID = .ok item) ∧
    (s.items.find? (fun x => x.ID = id) = none →
      s.Get now id = .error (.itemNotFound id)) ∧
    (s.items.find? (fun x => x.ID = id) = some it → hasExpired now it = true →
      s.Get now id = .error (.itemExpired id)) := by
  refine ⟨?_, ?_, ?_, ?_, ?_, ?_, ?_⟩
  · simp [QdrantStore.Store, hopen]
  · exact find?_upsert_self s.items item
  · intro item2 hne hpres s' hs'
    simp only [QdrantStore.Store, hopen, Bool.false_eq_true, if_false, Except.ok.injEq] at hs'
    subst hs'
    exact (find?_upsert_other s.items item2 item.ID hne).trans hpres
  · intro id' hne hpres s' hs'
    simp only [QdrantStore.Delete, hopen, Bool.false_eq_true, if_false, Except.ok.injEq] at hs'
    subst hs'
    exact (find?_erase_other s.items item.ID id' (fun hh => hne hh.symm)).trans hpres
  · intro h1 hpres hexp
    unfold present at hpres
    simp [QdrantStore.Get, h1, hpres, hexp]
  · intro habs
    simp [QdrantStore.Get, hopen, habs]
  · intro hfind hexp
    simp [QdrantStore.Get, hopen, hfind, hexp]

/-- Concrete store and item used to witness C6. -/
def iW6 : Item := ⟨"w", [1], "d", "c", "t", [], [], some 100⟩

/-- Empty open store used to witness C6. -/
def sW6 : QdrantStore := ⟨⟨true, "", "", 1, 0⟩, [], false⟩

/-- Witness for C6: a stored item is returned by `Get`, and `Get` on an
absent id fails with the not-found error. -/
theorem store_get_roundtrip_witness :
    QdrantStore.Get { sW6 with items := upsertItem sW6.items iW6 } 0 "w" = .ok iW6 ∧
    sW6.Get 0 "absent" = .error (.itemNotFound "absent") := by
  constructor
  · exact (store_get_roundtrip sW6 { sW6 with items := upsertItem sW6.items iW6 }
      0 "absent" iW6 iW6 rfl).2.2.2.2.1 rfl (find?_upsert_self sW6.items iW6) rfl
  · exact (store_get_roundtrip sW6 sW6 0 "absent" iW6 iW6 rfl).2.2.2.2.2.1 rfl

/-- Empty open store configured with vector dimension 3, used to refute C4. -/
def sC4 : QdrantStore := ⟨⟨true, "", "", 3, 0⟩, [], false⟩

/-- Item whose vector length 2 differs from the configured dimension 3. -/
def iC4 : Item := ⟨"x", [1, 2], "d", "c", "t", [], [], none⟩

/-- Counterexample to C4: from a state satisfying the dimension invariant,
`Store` accepts an item whose vector length (2) differs from the
configured dimension (3) without any validation, and the resulting state
violates the invariant. -/
theorem store_breaks_dimension_invariant :
    storeInvariant sC4 ∧
    sC4.Store iC4 = .ok { sC4 with items := [iC4] } ∧
    ¬ storeInvariant { sC4 with items := [iC4] } := by
  refine ⟨?_, ?_, ?_⟩
  · intro it hit
    simp [sC4] at hit
  · simp [QdrantStore.Store, sC4, upsertItem]
  · intro h
    have := h iC4 (by simp)
    simp [iC4, sC4] at this

/-- Claim C4 as amended: the store itself performs no dimension check, so
the invariant holds only conditionally — it is preserved by `Store` when
the supplied item's vector length equals the configured dimension, and
unconditionally by `Delete`, `Close` and the sweep pass; every item `Get`
returns out of an invariant-satisfying store has the configured length. -/
theorem store_dimension_invariant_conditional (s : QdrantStore) (item : Item)
    (id : String) (now : Int) (hinv : storeInvariant s) :
    (item.Vector.length = s.config.VectorSize →
      ∀ s', s.Store item = .ok s' → storeInvariant s') ∧
    (∀ s', s.Delete id = .ok s' → storeInvariant s') ∧
    storeInvariant s.Close.1 ∧
    storeInvariant (s.cleanupExpiredItems now) ∧
    (∀ x, s.Get now id = .ok x → x.Vector.length = s.config.VectorSize) := by
  refine ⟨?_, ?_, ?_, ?_, ?_⟩
  · intro hlen s' hs'
    by_cases hc : s.closed
    · simp [QdrantStore.Store, hc] at hs'
    · simp [QdrantStore.Store, hc] at hs'
      subst hs'
      intro x hx
      rcases mem_upsertItem hx with h | h
      · subst h
        exact hlen
      · exact hinv x h
  · intro s' hs'
    by_cases hc : s.closed
    · simp [QdrantStore.Delete, hc] at hs'
    · simp [QdrantStore.Delete, hc] at hs'
      subst hs'
      intro x hx
      exact hinv x (List.mem_of_mem_filter hx)
  · by_cases hc : s.closed <;> simp [QdrantStore.Close, hc]
    · exact hinv
    · intro x hx
      simp at hx
  · intro x hx
    exact hinv x (List.mem_of_mem_filter hx)
  · intro x hx
    by_cases hc : s.closed
    · simp [QdrantStore.Get, hc] at hx
    · rcases hfind : s.items.find? (fun y => y.ID = id) with _ | it'
      · simp [QdrantStore.Get, hc, hfind] at hx
      · by_cases he : hasExpired now it'
        · simp [QdrantStore.Get, hc, hfind, he] at hx
        · simp [QdrantStore.Get, hc, hfind, he] at hx
          subst hx
          exact hinv it' (List.mem_of_find?_eq_some hfind)

/-- Witness for the amended C4: on a concrete open store holding one
well-dimensioned item, `Store` of another well-dimensioned item preserves
the invariant. -/
theorem store_dimension_invariant_witness :
    storeInvariant { sW6 with items := upsertItem sW6.items iW6 } := by
  have h := (store_dimension_invariant_conditional sW6 iW6 "w" 0
    (by intro it hit; simp [sW6] at hit)).1 (by simp [iW6, sW6])
    { sW6 with items := upsertItem sW6.items iW6 } (by simp [QdrantStore.Store, sW6])
  exact h

/-- Claim C7: an item enters the scored candidate set of `Search` exactly
when it is held and eligible — not expired and, when the permission filter
is non-empty, sharing a permission with the filter (an empty filter
restricts nothing) — and every returned result stems from an eligible held
item. -/
theorem search_eligibility (s : QdrantStore) (now : Int) (params : SearchParams) :
    (∀ it : Item,
      it ∈ (searchScored s now params).map scoredItem.item ↔
        it ∈ s.items ∧ eligibleSpec now params it) ∧
    (∀ (rs : List SearchResult) (r : SearchResult),
      s.Search now params = .ok rs → r ∈ rs →
      ∃ it : Item, it ∈ s.items ∧ it.ID = r.ID ∧ eligibleSpec now params it) := by
  constructor
  · intro it
    simp [searchScored, List.map_map, Function.comp, List.mem_filter, searchKeep_iff]
  · intro rs r hok hr
    by_cases hc : s.closed
    · simp [QdrantStore.Search, hc] at hok
    · simp only [QdrantStore.Search, hc, Bool.false_eq_true, if_false, Except.ok.injEq] at hok
      subst hok
      rcases List.mem_map.mp hr with ⟨k, hk, rfl⟩
      have hk1 : k ∈ sortScored (searchScored s now params) := by
        revert hk
        split
        · intro hk
          exact List.take_subset _ _ hk
        · intro hk
          exact hk
      have hk2 : k ∈ searchScored s now params := (sortScored_perm _).mem_iff.mp hk1
      rcases List.mem_map.mp hk2 with ⟨it, hit, rfl⟩
      exact ⟨it, (List.mem_filter.mp hit).1, rfl,
        (searchKeep_iff now params it).mp (List.mem_filter.mp hit).2⟩

/-- Item A of the permission-filter scenario: permissions `["u1"]`. -/
def iA7 : Item := ⟨"A", [1], "dA", "cA", "t", [], ["u1"], none⟩

/-- Item B of the permission-filter scenario: permissions `["u2"]`. -/
def iB7 : Item := ⟨"B", [1], "dB", "cB", "t", [], ["u2"], none⟩

/-- Open store holding items A and B. -/
def sB7 : QdrantStore := ⟨⟨true, "", "", 1, 0⟩, [iA7, iB7], false⟩

/-- Search parameters with permission filter `["u1"]` and no limit. -/
def pB7 : SearchParams := ⟨[1], 0, ["u1"]⟩

/-- The single result of the permission-filtered search: item A. -/
def rA7 : vectorstore.SearchResult := ⟨"A", "dA", "cA", "t", [], 1⟩

theorem cosine_one_one : cosineSimilarity [1] [1] = 1 := by
  simp [cosineSimilarity, dotProduct, normSq, sqrtPOC]

theorem searchB_eval : sB7.Search 0 pB7 = .ok [rA7] := by
  simp [QdrantStore.Search, sB7, pB7, searchScored, searchKeep, hasExpired,
    permissionMatch, iA7, iB7, sortScored, selOne, toSearchResult, rA7, cosine_one_one]

/-- Witness for C7 at the permission-filter scenario: the search with
filter `["u1"]` returns item A, which is held and eligible. -/
theorem search_eligibility_witness :
    ∃ it : Item, it ∈ sB7.items ∧ it.ID = rA7.ID ∧ eligibleSpec 0 pB7 it :=
  (search_eligibility sB7 0 pB7).2 [rA7] rA7 searchB_eval (by simp)

/-- Tie-scenario item with id "a". -/
def iA3 : Item := ⟨"a", [1], "dA", "cA", "t", [], [], none⟩

/-- Tie-scenario item with id "b". -/
def iB3 : Item := ⟨"b", [1], "dB", "cB", "t", [], [], none⟩

/-- Open store whose backing-map iteration order yields "b" before "a"
(both orders are realizable for a Go map). -/
def sT3 : QdrantStore := ⟨⟨true, "", "", 1, 0⟩, [iB3, iA3], false⟩

/-- Unlimited, unfiltered search parameters for the tie scenario. -/
def pT3 : SearchParams := ⟨[1], 0, []⟩

/-- Result for item "b" (score 1). -/
def rB3 : vectorstore.SearchResult := ⟨"b", "dB", "cB", "t", [], 1⟩

/-- Result for item "a" (score 1). -/
def rA3 : vectorstore.SearchResult := ⟨"a", "dA", "cA", "t", [], 1⟩

theorem searchT3_eval : sT3.Search 0 pT3 = .ok [rB3, rA3] := by
  simp [QdrantStore.Search, sT3, pT3, searchScored, searchKeep, hasExpired,
    permissionMatch, iA3, iB3, sortScored, selOne, toSearchResult, rB3, rA3,
    cosine_one_one]

/-- Counterexample to C3: two eligible items score equally (1), yet the
search returns them as "b" then "a" — not with the tie broken by item id
ascending, which would require "a" first — so the output is not
deterministic across iteration orders. -/
theorem search_tie_not_id_ascending :
    sT3.Search 0 pT3 = .ok [rB3, rA3] ∧ rB3.Score = rA3.Score ∧
      rA3.ID.data < rB3.ID.data := by
  refine ⟨searchT3_eval, by simp [rB3, rA3], ?_⟩
  simp only [rA3, rB3]
  decide

/-- Claim C3 as amended: `Search` returns eligible items sorted by score
descending, with the order of equal scores left unspecified (the exchange
sort breaks ties neither by item id nor in any guaranteed stable way, so
tie order is not deterministic); it returns at most `Limit` results when
`Limit > 0`, it never omits a higher-scoring eligible item in favor of a
lower-scoring one, and every returned result stems from an eligible held
item carrying that item's cosine score. -/
theorem search_sorted_bounded_complete (s : QdrantStore) (now : Int)
    (params : SearchParams) (rs : List SearchResult)
    (hok : s.Search now params = .ok rs) :
    rs.Sorted (fun r₁ r₂ => r₂.Score ≤ r₁.Score) ∧
    (0 < params.Limit → (rs.length : Int) ≤ params.Limit) ∧
    (∀ it ∈ s.items, searchKeep now params it = true →
      (∀ r ∈ rs, r.ID ≠ it.ID) →
      ∀ r ∈ rs, cosineSimilarity params.Vector it.Vector ≤ r.Score) ∧
    (∀ r ∈ rs, ∃ it : Item, it ∈ s.items ∧ searchKeep now params it = true ∧
      r.ID = it.ID ∧ r.Score = cosineSimilarity params.Vector it.Vector) := by
  by_cases hc : s.closed
  · simp [QdrantStore.Search, hc] at hok
  · simp only [QdrantStore.Search, hc, Bool.false_eq_true, if_false, Except.ok.injEq] at hok
    subst hok
    refine ⟨?_, ?_, ?_, ?_⟩
    · have hs1 : (sortScored (searchScored s now params)).Pairwise
          (fun a b => b.score ≤ a.score) := sortScored_sorted _
      have hs2 : (if 0 < params.Limit ∧
            params.Limit < ((sortScored (searchScored s now params)).length : Int)
          then (sortScored (searchScored s now params)).take params.Limit.toNat
          else sortScored (searchScored s now params)).Pairwise
          (fun a b => b.score ≤ a.score) := by
        split
        · exact hs1.sublist (List.take_sublist _ _)
        · exact hs1
      rw [List.Sorted, List.pairwise_map]
      exact hs2
    · intro hlim
      rw [List.length_map]
      by_cases hcond : 0 < params.Limit ∧
          params.Limit < ((sortScored (searchScored s now params)).length : Int)
      · rw [if_pos hcond, List.length_take]
        have h1 := Nat.min_le_left params.Limit.toNat
          (sortScored (searchScored s now params)).length
        omega
      · rw [if_neg hcond]
        have h2 := (not_and.mp hcond) hlim
        rw [not_lt] at h2
        exact h2
    · intro it hit hkeep hnot r hr
      have hin : (⟨it, cosineSimilarity params.Vector it.Vector⟩ : scoredItem) ∈
          searchScored s now params :=
        List.mem_map.mpr ⟨it, List.mem_filter.mpr ⟨hit, hkeep⟩, rfl⟩
      have hin2 : (⟨it, cosineSimilarity params.Vector it.Vector⟩ : scoredItem) ∈
          sortScored (searchScored s now params) := (sortScored_perm _).mem_iff.mpr hin
      rcases List.mem_map.mp hr with ⟨k, hk, rfl⟩
      by_cases hcond : 0 < params.Limit ∧
          params.Limit < ((sortScored (searchScored s now params)).length : Int)
      · rw [if_pos hcond] at hk
        have hdrop : (⟨it, cosineSimilarity params.Vector it.Vector⟩ : scoredItem) ∈
            (sortScored (searchScored s now params)).drop params.Limit.toNat := by
          have hsplit : (⟨it, cosineSimilarity params.Vector it.Vector⟩ : scoredItem) ∈
              (sortScored (searchScored s now params)).take params.Limit.toNat ++
                (sortScored (searchScored s now params)).drop params.Limit.toNat := by
            rw [List.take_append_drop]
            exact hin2
          rcases List.mem_append.mp hsplit with h | h
          · have hcontra :=
              hnot (toSearchResult ⟨it, cosineSimilarity params.Vector it.Vector⟩)
                (List.mem_map_of_mem _ (by rw [if_pos hcond]; exact h))
            exact absurd rfl hcontra
          · exact h
        exact pairwise_take_drop (sortScored_sorted (searchScored s now params))
          params.Limit.toNat k hk _ hdrop
      · rw [if_neg hcond] at hk
        have hcontra :=
          hnot (toSearchResult ⟨it, cosineSimilarity params.Vector it.Vector⟩)
            (List.mem_map_of_mem _ (by rw [if_neg hcond]; exact hin2))
        exact absurd rfl hcontra
    · intro r hr
      rcases List.mem_map.mp hr with ⟨k, hk, rfl⟩
      have hk1 : k ∈ sortScored (searchScored s now params) := by
        revert hk
        split
        · intro hk
          exact List.take_subset _ _ hk
        · intro hk
          exact hk
      have hk2 : k ∈ searchScored s now params := (sortScored_perm _).mem_iff.mp hk1
      rcases List.mem_map.mp hk2 with ⟨it, hit, rfl⟩
      exact ⟨it, (List.mem_filter.mp hit).1, (List.mem_filter.mp hit).2, rfl, rfl⟩

/-- Witness for the amended C3: the concrete tie-scenario output is sorted
by score descending. -/
theorem search_sorted_bounded_complete_witness :
    ([rB3, rA3] : List SearchResult).Sorted (fun r₁ r₂ => r₂.Score ≤ r₁.Score) :=
  (search_sorted_bounded_complete sT3 0 pT3 [rB3, rA3] searchT3_eval).1

/-- Deterministic embedder stub used for the indexing scenario: every
chunk embeds to the one-dimensional vector (1). -/
def embedOne : String → Except Unit Vec := fun _ => .ok [1]

/-- Document "doc1" whose content is the two chunks of Scenario A. -/
def docC2 : document.ProcessorResult := ⟨"doc1", "T", ["hello world", "foo bar"], []⟩

/-- Empty open store for the indexing scenario. -/
def stC2 : QdrantStore := ⟨⟨true, "", "", 1, 1800⟩, [], false⟩

/-- Claim C2 (code bug evaluation): chunking "hello world foo bar" with
size 2 yields the chunks of Scenario A, but `IndexDocument` derives the
chunk ids with Go's `string(i)` int-to-rune conversion, so the stored ids
are "doc1-" followed by the characters U+0000 and U+0001 — not "doc1-0"
and "doc1-1". -/
theorem index_ids_not_decimal :
    document.chunkContent 2 "hello world foo bar" = docC2.Content ∧
    (search.IndexDocument embedOne docC2 [] 0 1800 stC2).2.items.map Item.ID =
      ["doc1-" ++ String.mk [Char.ofNat 0], "doc1-" ++ String.mk [Char.ofNat 1]] ∧
    ("doc1-" ++ String.mk [Char.ofNat 0] ≠ "doc1-0") := by
  refine ⟨?_, ?_, ?_⟩
  · have h : "hello world foo bar".toList =
        ['h','e','l','l','o',' ','w','o','r','l','d',' ','f','o','o',' ','b','a','r'] := rfl
    simp [document.chunkContent, document.goFields, h, document.fieldsAux,
      document.goIsSpace, document.chunkWords, String.intercalate,
      String.intercalate.go, docC2]
  · decide
  · decide

/-- Claim C8: in the chunk loop of `IndexDocument`, an embedding failure
on a chunk skips exactly that chunk and continues with the later chunks
(non-fatal); a `Store` failure returns that error immediately with the
store state left exactly as it was at the point of failure — items stored
for earlier chunks of the same call are kept, nothing is rolled back; a
`Store` success continues the loop on the updated store. -/
theorem index_chunk_failures (ε : Type) (embed : String → Except ε Vec)
    (docID title : String) (meta : List (String × String)) (perms : List String)
    (now ttl : Int) (i : Nat) (c : String) (cs : List String) (st : QdrantStore) :
    (∀ e, embed c = .error e →
      search.indexGo embed docID title meta perms now ttl i (c :: cs) st =
        search.indexGo embed docID title meta perms now ttl (i + 1) cs st) ∧
    (∀ v err, embed c = .ok v →
      st.Store (search.engineItem docID title meta perms now ttl i c v) = .error err →
      search.indexGo embed docID title meta perms now ttl i (c :: cs) st = (some err, st)) ∧
    (∀ v st', embed c = .ok v →
      st.Store (search.engineItem docID title meta perms now ttl i c v) = .ok st' →
      search.indexGo embed docID title meta perms now ttl i (c :: cs) st =
        search.indexGo embed docID title meta perms now ttl (i + 1) cs st') := by
  refine ⟨?_, ?_, ?_⟩
  · intro e he
    simp [search.indexGo, he]
  · intro v err hv herr
    simp [search.indexGo, hv, herr]
  · intro v st' hv hst
    simp [search.indexGo, hv, hst]

/-- Embedder stub failing exactly on the chunk text "bad". -/
def embedW8 : String → Except Unit Vec := fun s => if s = "bad" then .error () else .ok [1]

/-- Open empty store for the C8 witness. -/
def stW8 : QdrantStore := ⟨⟨true, "", "", 1, 0⟩, [], false⟩

/-- Closed store for the C8 witness (the one state in which `Store`
fails). -/
def stW8c : QdrantStore := ⟨⟨true, "", "", 1, 0⟩, [], true⟩

/-- Witness for C8: a failing chunk is skipped and the loop continues, and
a `Store` failure surfaces immediately with the state unchanged. -/
theorem index_chunk_failures_witness :
    (search.indexGo embedW8 "d" "t" [] [] 0 5 0 ["bad"] stW8 =
      search.indexGo embedW8 "d" "t" [] [] 0 5 1 [] stW8) ∧
    (search.indexGo embedW8 "d" "t" [] [] 0 5 0 ["good"] stW8c =
      (some .storeClosed, stW8c)) := by
  constructor
  · exact (index_chunk_failures Unit embedW8 "d" "t" [] [] 0 5 0 "bad" [] stW8).1 ()
      (by simp [embedW8])
  · exact (index_chunk_failures Unit embedW8 "d" "t" [] [] 0 5 0 "good" [] stW8c).2.1 [1]
      .storeClosed (by simp [embedW8]) (by simp [QdrantStore.Store, stW8c])

/-- Request with `Limit = 0` used to refute C10. -/
def reqC10 : search.SearchRequest := ⟨"q", "u", [], 0⟩

/-- Embedder stub that always fails (as the real embedder does once the
caller's context is cancelled). -/
def embedFailC10 : String → Except Unit Vec := fun _ => .error ()

/-- Open empty store for the C10 scenario. -/
def stC10 : QdrantStore := ⟨⟨true, "", "", 1, 0⟩, [], false⟩

/-- Counterexample to C10: when the query embedding fails, `Engine.Search`
returns before the limit-normalization line, so a call whose request has
`Limit ≤ 0` leaves the request unchanged — the default 10 is not written. -/
theorem engine_search_req_unchanged_on_embed_error :
    reqC10.Limit ≤ 0 ∧
    (search.Search embedFailC10 stC10 0 reqC10).1 = reqC10 ∧
    reqC10.Limit ≠ 10 := by
  refine ⟨by norm_num [reqC10], ?_, by norm_num [reqC10]⟩
  simp [search.Search, embedFailC10]

/-- Claim C10 as amended: on every `Engine.Search` call whose query
embedding succeeds, a request with `Limit ≤ 0` is mutated in place to
`Limit = 10` (no other field changes) before the store is queried, a
request with positive `Limit` is left unchanged, and the store is queried
with the mutated request's limit and the request's permissions. -/
theorem engine_search_limit_default (ε : Type) (embed : String → Except ε Vec)
    (st : QdrantStore) (now : Int) (req : search.SearchRequest) (v : Vec)
    (hv : embed req.Query = .ok v) :
    (req.Limit ≤ 0 → (search.Search embed st now req).1 = { req with Limit := 10 }) ∧
    (¬ req.Limit ≤ 0 → (search.Search embed st now req).1 = req) ∧
    ((search.Search embed st now req).2 =
      search.engineOutcome ε (st.Search now
        ⟨v, (search.Search embed st now req).1.Limit, req.Permissions⟩)) := by
  by_cases h : req.Limit ≤ 0 <;> simp [search.Search, hv, h]

/-- Request with positive limit used alongside `reqC10` in the C10
witness. -/
def reqW10 : search.SearchRequest := ⟨"q", "u", [], 7⟩

/-- Witness for the amended C10: with an embedder that succeeds, the
zero-limit request is rewritten to limit 10 and the positive-limit request
is untouched. -/
theorem engine_search_limit_default_witness :
    (search.Search embedOne stC10 0 reqC10).1 = { reqC10 with Limit := 10 } ∧
    (search.Search embedOne stC10 0 reqW10).1 = reqW10 := by
  constructor
  · exact (engine_search_limit_default Unit embedOne stC10 0 reqC10 [1] rfl).1
      (by norm_num [reqC10])
  · exact (engine_search_limit_default Unit embedOne stC10 0 reqW10 [1] rfl).2.1
      (by norm_num [reqW10])
